import Mathlib

/-!
Verification of the two data-analysis scripts of this repository
(`Task01/Python_task01.py` and `Task02/Task_02_seg_def.py`) against their
natural-language specification.

Task01's `DataHandler` holds two pandas dataframes read from CSV files.  A
dataframe is modelled as an ordered association list from column names to
columns of rational values (CSV numeric data; pandas keeps column order).
Series arithmetic between two dataframes aligns on the shared RangeIndex and
`sum`/`max` skip the positions present in only one series, which is exactly
elementwise combination over the common prefix, i.e. `List.zipWith`.
-/

namespace Task01

/-- A pandas dataframe of numeric columns: ordered list of
(column name, column values). -/
structure DataFrame where
  cols : List (String × List ℚ)
deriving Repr, DecidableEq

/-- First column matching a name, `[]` if absent (the claims only access
columns that are present). -/
def getCol : List (String × List ℚ) → String → List ℚ
  | [], _ => []
  | p :: ps, c => if p.1 = c then p.2 else getCol ps c

/-- `df[c]` — the values of column `c`. -/
def DataFrame.col (df : DataFrame) (c : String) : List ℚ :=
  getCol df.cols c

/-- `df.columns` — the column names in order. -/
def DataFrame.columns (df : DataFrame) : List String :=
  df.cols.map Prod.fst

/-- All columns of the dataframe have the same length (always true of a
pandas dataframe read from a CSV). -/
def DataFrame.Wf (df : DataFrame) : Prop :=
  ∀ p ∈ df.cols, ∀ q ∈ df.cols, p.2.length = q.2.length

/-- `((train_df[col] - ideal_df[ideal_col])**2).sum()`: sum of squared
differences.  Pandas aligns the two series on their RangeIndex and `sum`
skips missing positions, hence `zipWith` over the common prefix. -/
def sse (a b : List ℚ) : ℚ :=
  (List.zipWith (fun x y => (x - y) ^ 2) a b).sum

/-- `min(keys, key=f)`: the first element of the list attaining the minimum
of `f`; `none` on an empty list (Python raises `ValueError` there).  The
fold replaces the current best only on a strictly smaller value, exactly as
Python's `min` keeps the earliest minimum. -/
def argminBy (f : String → ℚ) : List String → Option String
  | [] => none
  | a :: as => some (as.foldl (fun best c => if f c < f best then c else best) a)

/-- Builds the `best_fit` dict: one `(train column, chosen ideal column)`
entry per element of `cols`, in order; `none` as soon as `choose` fails. -/
def selectAll (cols : List String) (choose : String → Option String) :
    Option (List (String × String)) :=
  match cols with
  | [] => some []
  | c :: cs =>
    match choose c, selectAll cs choose with
    | some b, some rest => some ((c, b) :: rest)
    | _, _ => none

/-- The `DataHandler` state after `__init__`: the two dataframes read from
the ideal and training CSV files. -/
structure DataHandler where
  ideal_df : DataFrame
  train_df : DataFrame
deriving Repr, DecidableEq

/-- `DataHandler.get_best_fit_functions`: for each training column after the
first (`x`), the candidate ideal column (among the ideal columns after the
first) minimizing the sum of squared differences; ties go to the earliest
candidate, as Python's `min` over the insertion-ordered dict does.  The
`best_fit` dict is modelled as an association list in insertion order. -/
def DataHandler.get_best_fit_functions (h : DataHandler) :
    Option (List (String × String)) :=
  selectAll (h.train_df.columns.drop 1) (fun col =>
    argminBy (fun ideal_col => sse (h.train_df.col col) (h.ideal_df.col ideal_col))
      (h.ideal_df.columns.drop 1))

/-- `abs(train_df[train_col] - ideal_df[ideal_col])`: the per-row absolute
deviations between a training column and an ideal column (over the common
prefix, as pandas alignment plus NaN-skipping yields). -/
def devList (train ideal : DataFrame) (train_col ideal_col : String) : List ℚ :=
  List.zipWith (fun a b => |a - b|) (train.col train_col) (ideal.col ideal_col)

/-- `ideal_df.loc[ideal_df["x"] == x_val, ideal_col]`: the values of
`ideal_col` at the rows whose `x` equals `x_val`. -/
def idealYs (ideal : DataFrame) (x_val : ℚ) (ideal_col : String) : List ℚ :=
  (((ideal.col "x").zip (ideal.col ideal_col)).filter
    (fun p => decide (p.1 = x_val))).map Prod.snd

/-- The comparison `deviation <= max_dev * (2**0.5)` of the source, for the
nonnegative quantities it is applied to.  The float `2**0.5` is modelled as
the real number `√2`; for `0 ≤ dev` and `0 ≤ max_dev` the real inequality
`dev ≤ √2 * max_dev` is equivalent to this decidable rational one (proved
below in `withinSqrt2_iff`). -/
def withinSqrt2 (dev max_dev : ℚ) : Bool :=
  decide (dev ^ 2 ≤ 2 * max_dev ^ 2)

/-- The body of the inner `for train_col, ideal_col in best_fit.items()`
loop for one test row `(x_val, y_val)` and one pair: `some` of the appended
tuple, `none` when the row is skipped for this pair.  An empty deviation
list makes pandas `.max()` return NaN and the float comparison with NaN is
false, so the row is skipped — modelled by the `none` branch of `max?`. -/
def candidateResult (h : DataHandler) (x_val y_val : ℚ)
    (p : String × String) : Option (ℚ × ℚ × String × ℚ) :=
  match (devList h.train_df h.ideal_df p.1 p.2).max? with
  | none => none
  | some max_dev =>
    match idealYs h.ideal_df x_val p.2 with
    | [] => none
    | ideal_y :: _ =>
      let deviation := |y_val - ideal_y|
      if withinSqrt2 deviation max_dev then
        some (x_val, y_val, p.2, deviation)
      else
        none

/-- The rows of the test dataframe as `(x, y)` pairs (`iterrows` over a
two-column `x`, `y` frame). -/
def testRows (test : DataFrame) : List (ℚ × ℚ) :=
  (test.col "x").zip (test.col "y")

/-- `DataHandler.validate_test_data`, applied to the already-read test
dataframe: for each test row whose `x` occurs in the ideal dataset's `x`
column, and each `(train_col, ideal_col)` pair of `best_fit`, append
`(x, y, ideal_col, deviation)` when the deviation from the first ideal `y`
at that `x` is within `√2` times the maximum training deviation. -/
def DataHandler.validate_test_data (h : DataHandler) (test : DataFrame)
    (best_fit : List (String × String)) : List (ℚ × ℚ × String × ℚ) :=
  (testRows test).flatMap (fun row =>
    if row.1 ∈ h.ideal_df.col "x" then
      best_fit.filterMap (candidateResult h row.1 row.2)
    else
      [])

/-- The fold inside `argminBy` returns an element no larger (under `f`) than
the seed and than every list element. -/
theorem foldl_min_le (f : String → ℚ) :
    ∀ (as : List String) (a c : String), c = a ∨ c ∈ as →
      f (as.foldl (fun best c => if f c < f best then c else best) a) ≤ f c := by
  intro as
  induction as with
  | nil =>
    intro a c hc
    rcases hc with rfl | h
    · exact le_refl _
    · simp at h
  | cons b bs ih =>
    intro a c hc
    simp only [List.foldl_cons]
    have hstep : f (if f b < f a then b else a) ≤ f a ∧
        f (if f b < f a then b else a) ≤ f b := by
      by_cases h : f b < f a
      · simp only [if_pos h]
        exact ⟨le_of_lt h, le_refl _⟩
      · simp only [if_neg h]
        exact ⟨le_refl _, le_of_not_lt h⟩
    rcases hc with rfl | hc
    · exact le_trans (ih _ _ (Or.inl rfl)) hstep.1
    · rcases List.mem_cons.mp hc with rfl | hc
      · exact le_trans (ih _ _ (Or.inl rfl)) hstep.2
      · exact ih _ _ (Or.inr hc)

/-- The fold inside `argminBy` returns the first element of `a :: as`
attaining the minimum: everything strictly before the result is strictly
larger under `f`. -/
theorem foldl_min_first (f : String → ℚ) :
    ∀ (as : List String) (a : String),
      ∃ l1 l2,
        a :: as =
          l1 ++ (as.foldl (fun best c => if f c < f best then c else best) a) :: l2 ∧
        ∀ c ∈ l1,
          f (as.foldl (fun best c => if f c < f best then c else best) a) < f c := by
  intro as
  induction as with
  | nil => intro a; exact ⟨[], [], rfl, by simp⟩
  | cons b bs ih =>
    intro a
    simp only [List.foldl_cons]
    by_cases h : f b < f a
    · simp only [if_pos h]
      obtain ⟨l1, l2, he, hl⟩ := ih b
      refine ⟨a :: l1, l2, ?_, ?_⟩
      · rw [List.cons_append, ← he]
      · intro c hc
        rcases List.mem_cons.mp hc with rfl | hc
        · exact lt_of_le_of_lt (foldl_min_le f bs b b (Or.inl rfl)) h
        · exact hl c hc
    · simp only [if_neg h]
      obtain ⟨l1, l2, he, hl⟩ := ih a
      cases l1 with
      | nil =>
        simp only [List.nil_append] at he
        refine ⟨[], b :: bs, ?_, by simp⟩
        rw [List.nil_append, ← (List.cons.injEq _ _ _ _).mp he |>.1]
      | cons a' l1' =>
        simp only [List.cons_append, List.cons.injEq] at he
        obtain ⟨rfl, hbs⟩ := he
        refine ⟨a :: b :: l1', l2, ?_, ?_⟩
        · rw [List.cons_append, List.cons_append, ← hbs]
        · intro c hc
          rcases List.mem_cons.mp hc with rfl | hc
          · exact hl _ (List.mem_cons_self _ _)
          · rcases List.mem_cons.mp hc with rfl | hc
            · exact lt_of_lt_of_le (hl a (List.mem_cons_self _ _)) (le_of_not_lt h)
            · exact hl c (List.mem_cons.mpr (Or.inr hc))

/-- A successful `argminBy` returns a member of the candidate list. -/
theorem argminBy_mem (f : String → ℚ) (cs : List String) (r : String)
    (h : argminBy f cs = some r) : r ∈ cs := by
  cases cs with
  | nil => simp [argminBy] at h
  | cons a as =>
    obtain ⟨l1, l2, he, _⟩ := foldl_min_first f as a
    have hr : r = as.foldl (fun best c => if f c < f best then c else best) a := by
      simpa [argminBy] using h.symm
    rw [hr, he]
    exact List.mem_append.mpr (Or.inr (List.mem_cons_self _ _))

/-- A successful `argminBy` attains the minimum of `f` over the candidates. -/
theorem argminBy_le (f : String → ℚ) (cs : List String) (r : String)
    (h : argminBy f cs = some r) : ∀ c ∈ cs, f r ≤ f c := by
  cases cs with
  | nil => simp [argminBy] at h
  | cons a as =>
    have hr : r = as.foldl (fun best c => if f c < f best then c else best) a := by
      simpa [argminBy] using h.symm
    intro c hc
    rw [hr]
    rcases List.mem_cons.mp hc with rfl | hc
    · exact foldl_min_le f as _ _ (Or.inl rfl)
    · exact foldl_min_le f as _ _ (Or.inr hc)

/-- A successful `argminBy` returns the FIRST minimum: every candidate
strictly before it in the list is strictly larger under `f`. -/
theorem argminBy_first (f : String → ℚ) (cs : List String) (r : String)
    (h : argminBy f cs = some r) :
    ∃ l1 l2, cs = l1 ++ r :: l2 ∧ ∀ c ∈ l1, f r < f c := by
  cases cs with
  | nil => simp [argminBy] at h
  | cons a as =>
    have hr : r = as.foldl (fun best c => if f c < f best then c else best) a := by
      simpa [argminBy] using h.symm
    obtain ⟨l1, l2, he, hl⟩ := foldl_min_first f as a
    exact ⟨l1, l2, by rw [hr]; exact he, by rw [hr]; exact hl⟩

/-- A successful `selectAll` pairs each input column, in order, with a
chosen value: the first components are exactly the input columns. -/
theorem selectAll_map_fst (choose : String → Option String) :
    ∀ (cols : List String) (res : List (String × String)),
      selectAll cols choose = some res → res.map Prod.fst = cols := by
  intro cols
  induction cols with
  | nil => intro res h; simp [selectAll] at h; simp [← h]
  | cons c cs ih =>
    intro res h
    simp only [selectAll] at h
    cases hc : choose c with
    | none => rw [hc] at h; simp at h
    | some b =>
      rw [hc] at h
      cases hrest : selectAll cs choose with
      | none => rw [hrest] at h; simp at h
      | some rest =>
        rw [hrest] at h
        simp only [Option.some.injEq] at h
        rw [← h]
        simp [ih rest hrest]

/-- Every entry of a successful `selectAll` result comes from an input
column together with its chosen value. -/
theorem selectAll_mem (choose : String → Option String) :
    ∀ (cols : List String) (res : List (String × String)),
      selectAll cols choose = some res →
      ∀ p ∈ res, p.1 ∈ cols ∧ choose p.1 = some p.2 := by
  intro cols
  induction cols with
  | nil => intro res h; simp [selectAll] at h; simp [h]
  | cons c cs ih =>
    intro res h
    simp only [selectAll] at h
    cases hc : choose c with
    | none => rw [hc] at h; simp at h
    | some b =>
      rw [hc] at h
      cases hrest : selectAll cs choose with
      | none => rw [hrest] at h; simp at h
      | some rest =>
        rw [hrest] at h
        simp only [Option.some.injEq] at h
        intro p hp
        rw [← h] at hp
        rcases List.mem_cons.mp hp with rfl | hp
        · exact ⟨List.mem_cons_self _ _, hc⟩
        · obtain ⟨h1, h2⟩ := ih rest hrest p hp
          exact ⟨List.mem_cons.mpr (Or.inr h1), h2⟩

/-- In a list of pairs with duplicate-free first components, the first
component determines the entry. -/
theorem nodup_keys_unique :
    ∀ (l : List (String × String)), (l.map Prod.fst).Nodup →
      ∀ a b1 b2, (a, b1) ∈ l → (a, b2) ∈ l → b1 = b2 := by
  intro l
  induction l with
  | nil => intro _ a b1 b2 h1; simp at h1
  | cons p ps ih =>
    intro hnd a b1 b2 h1 h2
    simp only [List.map_cons, List.nodup_cons] at hnd
    rcases List.mem_cons.mp h1 with he1 | h1 <;>
      rcases List.mem_cons.mp h2 with he2 | h2
    · rw [← he2] at he1
      exact ((Prod.mk.injEq _ _ _ _).mp he1).2
    · exact absurd (List.mem_map.mpr ⟨(a, b2), h2, by rw [← he1]⟩) hnd.1
    · exact absurd (List.mem_map.mpr ⟨(a, b1), h1, by rw [← he2]⟩) hnd.1
    · exact ih hnd.2 a b1 b2 h1 h2

/-- C1: every entry `(col, ic)` of the `best_fit` mapping pairs a training
column with an ideal column drawn from the candidates (all ideal columns
but the first, `x`) that minimizes the sum of squared differences with the
training column over all candidates. -/
theorem best_fit_minimizes_sse (h : DataHandler) (bf : List (String × String))
    (hbf : h.get_best_fit_functions = some bf) (col ic : String)
    (hmem : (col, ic) ∈ bf) :
    col ∈ h.train_df.columns.drop 1 ∧
    ic ∈ h.ideal_df.columns.drop 1 ∧
    ∀ ic' ∈ h.ideal_df.columns.drop 1,
      sse (h.train_df.col col) (h.ideal_df.col ic) ≤
      sse (h.train_df.col col) (h.ideal_df.col ic') := by
  obtain ⟨h1, h2⟩ := selectAll_mem _ _ _ hbf (col, ic) hmem
  exact ⟨h1, argminBy_mem _ _ _ h2, argminBy_le _ _ _ h2⟩

/-- Concrete handler for the witnesses: ideal columns `x, f1, f2`, training
columns `x, y1`; `f2` matches `y1` exactly while `f1` does not. -/
def dhW : DataHandler :=
  ⟨⟨[("x", [1, 2]), ("f1", [10, 10]), ("f2", [1, 2])]⟩,
   ⟨[("x", [1, 2]), ("y1", [1, 2])]⟩⟩

/-- Witness for C1 at a concrete handler: the chosen column is `f2`. -/
theorem best_fit_minimizes_sse_witness :
    dhW.get_best_fit_functions = some [("y1", "f2")] ∧
    ("y1" ∈ dhW.train_df.columns.drop 1 ∧
     "f2" ∈ dhW.ideal_df.columns.drop 1 ∧
     ∀ ic' ∈ dhW.ideal_df.columns.drop 1,
       sse (dhW.train_df.col "y1") (dhW.ideal_df.col "f2") ≤
       sse (dhW.train_df.col "y1") (dhW.ideal_df.col ic')) :=
  ⟨by norm_num [dhW, DataHandler.get_best_fit_functions, DataFrame.columns,
      DataFrame.col, getCol, selectAll, argminBy, sse, List.zipWith],
   best_fit_minimizes_sse dhW [("y1", "f2")]
     (by norm_num [dhW, DataHandler.get_best_fit_functions, DataFrame.columns,
       DataFrame.col, getCol, selectAll, argminBy, sse, List.zipWith])
     "y1" "f2" (by decide)⟩

/-- C3: when the training dataframe has columns `x` followed by exactly four
training curves (distinct, as pandas `read_csv` guarantees), a successful
`get_best_fit_functions` returns exactly four entries, exactly one chosen
ideal function for each of the four training curves, in order. -/
theorem best_fit_four_entries (h : DataHandler) (bf : List (String × String))
    (x c1 c2 c3 c4 : String)
    (hcols : h.train_df.columns = [x, c1, c2, c3, c4])
    (hnd : ([c1, c2, c3, c4] : List String).Nodup)
    (hbf : h.get_best_fit_functions = some bf) :
    bf.length = 4 ∧ bf.map Prod.fst = [c1, c2, c3, c4] ∧
    ∀ c ∈ ([c1, c2, c3, c4] : List String), ∃! ic, (c, ic) ∈ bf := by
  have h1 := selectAll_map_fst _ _ _ hbf
  rw [hcols] at h1
  simp only [List.drop] at h1
  refine ⟨?_, h1, ?_⟩
  · have := congrArg List.length h1
    simpa using this
  · intro c hc
    have hcmem : c ∈ bf.map Prod.fst := by rw [h1]; exact hc
    obtain ⟨p, hp, hpc⟩ := List.mem_map.mp hcmem
    refine ⟨p.2, by rw [← hpc]; exact hp, ?_⟩
    intro ic' hic'
    exact nodup_keys_unique bf (by rw [h1]; exact hnd) c ic' p.2 hic'
      (by rw [← hpc]; exact hp)

/-- Concrete handler with four training curves for the C3 witness. -/
def dhW4 : DataHandler :=
  ⟨⟨[("x", [0]), ("f1", [1]), ("f2", [2])]⟩,
   ⟨[("x", [0]), ("y1", [1]), ("y2", [2]), ("y3", [1]), ("y4", [2])]⟩⟩

/-- Witness for C3 at a concrete handler with four training curves. -/
theorem best_fit_four_entries_witness :
    ∃ bf, dhW4.get_best_fit_functions = some bf ∧
      bf.length = 4 ∧ bf.map Prod.fst = ["y1", "y2", "y3", "y4"] ∧
      ∀ c ∈ (["y1", "y2", "y3", "y4"] : List String), ∃! ic, (c, ic) ∈ bf :=
  ⟨[("y1", "f1"), ("y2", "f2"), ("y3", "f1"), ("y4", "f2")],
   by norm_num [dhW4, DataHandler.get_best_fit_functions, DataFrame.columns,
     DataFrame.col, getCol, selectAll, argminBy, sse, List.zipWith],
   best_fit_four_entries dhW4 _ "x" "y1" "y2" "y3" "y4" (by decide) (by decide)
     (by norm_num [dhW4, DataHandler.get_best_fit_functions, DataFrame.columns,
       DataFrame.col, getCol, selectAll, argminBy, sse, List.zipWith])⟩

/-- C4: `get_best_fit_functions` is deterministic (a pure function of the
two dataframes: the iteration orders are the fixed column orders), and each
chosen ideal column splits the candidate list so that every candidate
strictly before it has strictly larger sum of squared errors — hence among
tied minimizers the earliest candidate in the ideal column order is
chosen. -/
theorem best_fit_deterministic_first_tie (h : DataHandler)
    (bf : List (String × String))
    (hbf : h.get_best_fit_functions = some bf) (col ic : String)
    (hmem : (col, ic) ∈ bf) :
    h.get_best_fit_functions = h.get_best_fit_functions ∧
    ∃ l1 l2, h.ideal_df.columns.drop 1 = l1 ++ ic :: l2 ∧
      ∀ ic' ∈ l1,
        sse (h.train_df.col col) (h.ideal_df.col ic) <
        sse (h.train_df.col col) (h.ideal_df.col ic') := by
  obtain ⟨_, h2⟩ := selectAll_mem _ _ _ hbf (col, ic) hmem
  exact ⟨rfl, argminBy_first _ _ _ h2⟩

/-- Concrete handler where two ideal columns tie for the C4 witness: `g1`
and `g2` both match `y1` exactly; the earlier column `g1` is chosen. -/
def dhTie : DataHandler :=
  ⟨⟨[("x", [1, 2]), ("g1", [3, 4]), ("g2", [3, 4])]⟩,
   ⟨[("x", [1, 2]), ("y1", [3, 4])]⟩⟩

/-- Witness for C4 at a concrete handler with a tie: the earliest tied
candidate `g1` is selected. -/
theorem best_fit_deterministic_first_tie_witness :
    dhTie.get_best_fit_functions = some [("y1", "g1")] ∧
    (dhTie.get_best_fit_functions = dhTie.get_best_fit_functions ∧
     ∃ l1 l2, dhTie.ideal_df.columns.drop 1 = l1 ++ "g1" :: l2 ∧
       ∀ ic' ∈ l1,
         sse (dhTie.train_df.col "y1") (dhTie.ideal_df.col "g1") <
         sse (dhTie.train_df.col "y1") (dhTie.ideal_df.col ic')) :=
  ⟨by norm_num [dhTie, DataHandler.get_best_fit_functions, DataFrame.columns,
      DataFrame.col, getCol, selectAll, argminBy, sse, List.zipWith],
   best_fit_deterministic_first_tie dhTie [("y1", "g1")]
     (by norm_num [dhTie, DataHandler.get_best_fit_functions, DataFrame.columns,
       DataFrame.col, getCol, selectAll, argminBy, sse, List.zipWith])
     "y1" "g1" (by decide)⟩

/-- The decidable rational comparison `withinSqrt2` is exactly the real
inequality `dev ≤ √2 * max_dev` for the nonnegative quantities the source
applies it to. -/
theorem withinSqrt2_iff (dev max_dev : ℚ) (hd : 0 ≤ dev) (hm : 0 ≤ max_dev) :
    withinSqrt2 dev max_dev = true ↔ (dev : ℝ) ≤ Real.sqrt 2 * max_dev := by
  have hm' : (0 : ℝ) ≤ (max_dev : ℝ) := by exact_mod_cast hm
  have hd' : (0 : ℝ) ≤ (dev : ℝ) := by exact_mod_cast hd
  have hs : Real.sqrt 2 * (max_dev : ℝ) = Real.sqrt (2 * (max_dev : ℝ) ^ 2) := by
    rw [Real.sqrt_mul (by norm_num : (0 : ℝ) ≤ 2), Real.sqrt_sq hm']
  rw [withinSqrt2, decide_eq_true_iff, hs, Real.le_sqrt hd' (by positivity)]
  constructor
  · intro h; exact_mod_cast h
  · intro h; exact_mod_cast h

/-- Every entry of `devList` is an absolute value, hence nonnegative. -/
theorem devList_nonneg (train ideal : DataFrame) (tc ic : String) :
    ∀ q ∈ devList train ideal tc ic, 0 ≤ q := by
  unfold devList
  generalize train.col tc = as
  generalize ideal.col ic = bs
  induction as generalizing bs with
  | nil => simp
  | cons a as ih =>
    cases bs with
    | nil => simp
    | cons b bs =>
      intro q hq
      rw [List.zipWith_cons_cons] at hq
      rcases List.mem_cons.mp hq with rfl | hq
      · exact abs_nonneg _
      · exact ih bs q hq

/-- Characterization of the per-candidate step of `validate_test_data`:
it produces a tuple exactly when the deviation list has a maximum (NaN
comparisons reject the empty case), the ideal lookup is nonempty, and the
deviation from the first looked-up value passes the `√2` threshold. -/
theorem candidateResult_eq_some (h : DataHandler) (x_val y_val : ℚ)
    (tc ic : String) (t : ℚ × ℚ × String × ℚ) :
    candidateResult h x_val y_val (tc, ic) = some t ↔
      ∃ max_dev ideal_y ys,
        (devList h.train_df h.ideal_df tc ic).max? = some max_dev ∧
        idealYs h.ideal_df x_val ic = ideal_y :: ys ∧
        withinSqrt2 |y_val - ideal_y| max_dev = true ∧
        t = (x_val, y_val, ic, |y_val - ideal_y|) := by
  unfold candidateResult
  cases hmax : (devList h.train_df h.ideal_df tc ic).max? with
  | none => simp
  | some m =>
    cases hys : idealYs h.ideal_df x_val ic with
    | nil => simp
    | cons iy ys =>
      by_cases hw : withinSqrt2 |y_val - iy| m
      · simp only [hw, if_true, Option.some.injEq]
        constructor
        · intro ht
          exact ⟨m, iy, ys, rfl, rfl, hw, ht.symm⟩
        · rintro ⟨m', iy', ys', hm', hys', hw', rfl⟩
          obtain ⟨rfl, rfl⟩ := List.cons.inj hys'
          rfl
      · simp only [Bool.not_eq_true] at hw
        simp only [hw, Bool.false_eq_true, if_false]
        constructor
        · intro ht; exact Option.noConfusion ht
        · rintro ⟨m', iy', ys', hm', hys', hw', -⟩
          obtain rfl := Option.some.inj hm'
          obtain ⟨rfl, -⟩ := List.cons.inj hys'
          rw [hw'] at hw
          exact Bool.noConfusion hw

/-- A maximum extracted from `devList` is nonnegative. -/
theorem max_devList_nonneg (train ideal : DataFrame) (tc ic : String)
    (m : ℚ) (hm : (devList train ideal tc ic).max? = some m) : 0 ≤ m :=
  devList_nonneg train ideal tc ic m
    (List.max?_mem (fun a b => max_choice a b) hm)

/-- C2: `validate_test_data` returns exactly the tuples
`(x, y, ideal_col, deviation)` with `(x, y)` a test row whose `x` occurs in
the ideal dataset's `x` column, `(train_col, ideal_col)` a pair of
`best_fit`, `deviation = |y - ideal_y|` for `ideal_y` the looked-up ideal
value at that `x`, and `deviation ≤ √2` times the maximum absolute
deviation between the training column and the ideal column; a test point
whose deviation exceeds that threshold for a candidate contributes no tuple
for that candidate. -/
theorem validate_test_data_mem_iff (h : DataHandler) (test : DataFrame)
    (bf : List (String × String)) (t : ℚ × ℚ × String × ℚ) :
    t ∈ h.validate_test_data test bf ↔
      ∃ x y tc ic, (x, y) ∈ testRows test ∧
        x ∈ h.ideal_df.col "x" ∧ (tc, ic) ∈ bf ∧
        ∃ max_dev ideal_y ys,
          (devList h.train_df h.ideal_df tc ic).max? = some max_dev ∧
          idealYs h.ideal_df x ic = ideal_y :: ys ∧
          ((|y - ideal_y| : ℚ) : ℝ) ≤ Real.sqrt 2 * max_dev ∧
          t = (x, y, ic, |y - ideal_y|) := by
  unfold DataHandler.validate_test_data
  rw [List.mem_flatMap]
  constructor
  · rintro ⟨⟨x, y⟩, hrow, ht⟩
    by_cases hx : x ∈ h.ideal_df.col "x"
    · rw [if_pos hx] at ht
      obtain ⟨⟨tc, ic⟩, hp, hcr⟩ := List.mem_filterMap.mp ht
      obtain ⟨m, iy, ys, hmax, hys, hw, rfl⟩ :=
        (candidateResult_eq_some h x y tc ic _).mp hcr
      exact ⟨x, y, tc, ic, hrow, hx, hp, m, iy, ys, hmax, hys,
        (withinSqrt2_iff _ _ (abs_nonneg _)
          (max_devList_nonneg _ _ _ _ _ hmax)).mp hw, rfl⟩
    · rw [if_neg hx] at ht
      simp at ht
  · rintro ⟨x, y, tc, ic, hrow, hx, hbf, m, iy, ys, hmax, hys, hw, rfl⟩
    refine ⟨(x, y), hrow, ?_⟩
    rw [if_pos hx]
    exact List.mem_filterMap.mpr ⟨(tc, ic), hbf,
      (candidateResult_eq_some h x y tc ic _).mpr ⟨m, iy, ys, hmax, hys,
        (withinSqrt2_iff _ _ (abs_nonneg _)
          (max_devList_nonneg _ _ _ _ _ hmax)).mpr hw, rfl⟩⟩

/-- A column name present in `columns` names an actual entry, and `col`
returns that (first) entry's values. -/
theorem getCol_mem : ∀ (ps : List (String × List ℚ)) (c : String),
    c ∈ ps.map Prod.fst → (c, getCol ps c) ∈ ps := by
  intro ps
  induction ps with
  | nil => simp
  | cons p ps ih =>
    intro c hc
    by_cases h : p.1 = c
    · rw [getCol, if_pos h]
      exact List.mem_cons.mpr (Or.inl (by rw [← h]))
    · rw [getCol, if_neg h]
      have hc' : c ∈ ps.map Prod.fst := by
        rw [List.map_cons] at hc
        rcases List.mem_cons.mp hc with he | hm
        · exact absurd he.symm h
        · exact hm
      exact List.mem_cons.mpr (Or.inr (ih c hc'))

/-- In a well-formed dataframe any two present columns have equal length. -/
theorem col_length_eq (df : DataFrame) (hwf : df.Wf) (c d : String)
    (hc : c ∈ df.columns) (hd : d ∈ df.columns) :
    (df.col c).length = (df.col d).length :=
  hwf (c, df.col c) (getCol_mem df.cols c hc) (d, df.col d)
    (getCol_mem df.cols d hd)

/-- Lists of equal length zip every left element with some right element. -/
theorem mem_zip_of_mem_left : ∀ (xs ys : List ℚ), xs.length = ys.length →
    ∀ x ∈ xs, ∃ y, (x, y) ∈ xs.zip ys := by
  intro xs
  induction xs with
  | nil => simp
  | cons a as ih =>
    intro ys hlen x hx
    cases ys with
    | nil => simp at hlen
    | cons b bs =>
      rcases List.mem_cons.mp hx with rfl | hx
      · exact ⟨b, List.mem_cons_self _ _⟩
      · obtain ⟨y, hy⟩ := ih bs (by simpa using hlen) x hx
        exact ⟨y, by rw [List.zip_cons_cons]; exact List.mem_cons.mpr (Or.inr hy)⟩

/-- C9: in `validate_test_data`, once a test row passes the membership check
`x_val ∈ ideal_df["x"].values`, the lookup
`ideal_df.loc[ideal_df["x"] == x_val, ideal_col]` is nonempty (for a
well-formed ideal dataframe whose `x` and looked-up columns are present),
so the `if not ideal_y_values.empty` guard never takes the empty branch
under that precondition. -/
theorem validate_guard_redundant (df : DataFrame) (hwf : df.Wf)
    (c : String) (hx : "x" ∈ df.columns) (hc : c ∈ df.columns) (x_val : ℚ)
    (hmem : x_val ∈ df.col "x") : idealYs df x_val c ≠ [] := by
  obtain ⟨y, hy⟩ := mem_zip_of_mem_left (df.col "x") (df.col c)
    (col_length_eq df hwf "x" c hx hc) x_val hmem
  apply List.ne_nil_of_mem (a := y)
  unfold idealYs
  exact List.mem_map.mpr ⟨(x_val, y), List.mem_filter.mpr ⟨hy, by simp⟩, rfl⟩

/-- Witness for C9 at the concrete ideal dataframe of `dhW`. -/
theorem validate_guard_redundant_witness :
    idealYs dhW.ideal_df 1 "f1" ≠ [] :=
  validate_guard_redundant dhW.ideal_df (by unfold DataFrame.Wf; decide)
    "f1" (by decide) (by decide) 1 (by decide)

/-- `get_best_fit_functions` as a state-passing call on the handler: the
method body only reads `self.train_df` and `self.ideal_df` (no assignment
to any attribute occurs in it), so the translated call returns the handler
state it was given. -/
def getBestFitRun (h : DataHandler) :
    Option (List (String × String)) × DataHandler :=
  (h.get_best_fit_functions, h)

/-- `validate_test_data` as a state-passing call on the handler: its body
reads `self.train_df` and `self.ideal_df` and builds local values only, so
the translated call returns the handler state it was given. -/
def validateRun (h : DataHandler) (test : DataFrame)
    (bf : List (String × String)) :
    List (ℚ × ℚ × String × ℚ) × DataHandler :=
  (h.validate_test_data test bf, h)

/-- C8: neither operation modifies the handler: `ideal_df` and `train_df`
are identical before and after every call. -/
theorem handler_state_unchanged (h : DataHandler) (test : DataFrame)
    (bf : List (String × String)) :
    (getBestFitRun h).2.ideal_df = h.ideal_df ∧
    (getBestFitRun h).2.train_df = h.train_df ∧
    (validateRun h test bf).2.ideal_df = h.ideal_df ∧
    (validateRun h test bf).2.train_df = h.train_df :=
  ⟨rfl, rfl, rfl, rfl⟩

/-- `DataHandler.__init__` with the `pd.read_csv` library call abstracted
as a fallible function: read the ideal file, then the training file.  The
class installs no exception handler, so a failing read is the caller's
result. -/
def DataHandler.make (read : String → Except String DataFrame)
    (ideal_file train_file : String) : Except String DataHandler := do
  let i ← read ideal_file
  let t ← read train_file
  pure ⟨i, t⟩

/-- `validate_test_data` with its `pd.read_csv(test_file)` call abstracted
as a fallible function. -/
def validate_test_dataE (read : String → Except String DataFrame)
    (h : DataHandler) (test_file : String) (bf : List (String × String)) :
    Except String (List (ℚ × ℚ × String × ℚ)) := do
  let test ← read test_file
  pure (h.validate_test_data test bf)

/-- C7: the operations perform no failure handling of their own: a failing
library read propagates unchanged out of `__init__` (from either file) and
out of `validate_test_data`, and the one failure `get_best_fit_functions`
can raise itself (`min` over an empty candidate dict) likewise surfaces to
the caller (`none`). -/
theorem errors_propagate (read : String → Except String DataFrame)
    (ideal_file train_file test_file : String) (h : DataHandler)
    (bf : List (String × String)) (e : String) :
    (read ideal_file = .error e →
      DataHandler.make read ideal_file train_file = .error e) ∧
    (∀ df, read ideal_file = .ok df → read train_file = .error e →
      DataHandler.make read ideal_file train_file = .error e) ∧
    (read test_file = .error e →
      validate_test_dataE read h test_file bf = .error e) ∧
    (h.ideal_df.columns.drop 1 = [] → h.train_df.columns.drop 1 ≠ [] →
      h.get_best_fit_functions = none) := by
  refine ⟨?_, ?_, ?_, ?_⟩
  · intro h1
    unfold DataHandler.make
    rw [h1]
    rfl
  · intro df h1 h2
    unfold DataHandler.make
    rw [h1, h2]
    rfl
  · intro h1
    unfold validate_test_dataE
    rw [h1]
    rfl
  · intro hcols htr
    cases htrain : h.train_df.columns.drop 1 with
    | nil => exact absurd htrain htr
    | cons c cs =>
      unfold DataHandler.get_best_fit_functions
      rw [htrain, hcols]
      simp [selectAll, argminBy]

/-- A concrete fallible reader for the C7 witness. -/
def readW : String → Except String DataFrame := fun p =>
  if p = "bad.csv" then .error "io error" else .ok dhW.ideal_df

/-- A handler with no ideal candidate columns for the C7 witness. -/
def dhNoCand : DataHandler :=
  ⟨⟨[("x", [0])]⟩, ⟨[("x", [0]), ("y1", [0])]⟩⟩

/-- Witness for C7: each propagation fact at concrete inputs. -/
theorem errors_propagate_witness :
    DataHandler.make readW "bad.csv" "train.csv" = .error "io error" ∧
    DataHandler.make readW "ok.csv" "bad.csv" = .error "io error" ∧
    validate_test_dataE readW dhW "bad.csv" [] = .error "io error" ∧
    dhNoCand.get_best_fit_functions = none :=
  ⟨(errors_propagate readW "bad.csv" "train.csv" "t.csv" dhW [] "io error").1
     (by simp [readW]),
   (errors_propagate readW "ok.csv" "bad.csv" "t.csv" dhW [] "io error").2.1
     dhW.ideal_df (by simp [readW]) (by simp [readW]),
   (errors_propagate readW "i.csv" "t.csv" "bad.csv" dhW [] "io error").2.2.1
     (by simp [readW]),
   (errors_propagate readW "i.csv" "t.csv" "bad.csv" dhNoCand [] "io error").2.2.2
     (by decide) (by decide)⟩

/-- The CSV reads performed by `DataHandler.__init__(ideal_file,
train_file)`: `pd.read_csv(ideal_file)` then `pd.read_csv(train_file)`,
nothing else. -/
def initReads (ideal_file train_file : String) : List String :=
  [ideal_file, train_file]

/-- The CSV reads performed by one `validate_test_data(test_file, ...)`
call: `pd.read_csv(test_file)` once. -/
def validateReads (test_file : String) : List String :=
  [test_file]

/-- The CSV reads performed by `get_best_fit_functions`: none. -/
def getBestFitReads : List String := []

end Task01

namespace Task02

/-- A column of the Task02 dataset: numeric (int/float dtype) or
non-numeric (object dtype, e.g. the `Nanoparticle_Type` strings). -/
inductive ColData
  | nums (vals : List ℚ)
  | strs (vals : List String)
deriving Repr, DecidableEq

/-- The dtype test `select_dtypes(include=['number'])` applies per column. -/
def ColData.isNumeric : ColData → Bool
  | .nums _ => true
  | .strs _ => false

/-- A Task02 dataframe: ordered columns of mixed dtypes. -/
structure DataSet where
  cols : List (String × ColData)
deriving Repr, DecidableEq

/-- `preprocess_data`: `data.select_dtypes(include=['number'])` keeps
exactly the numeric columns, in their original order. -/
def preprocess_data (data : DataSet) : DataSet :=
  ⟨data.cols.filter (fun p => p.2.isNumeric)⟩

/-- The externally visible effects of the second script: CSV reads and
displayed plots.  The heatmap event records the dataframe whose
correlation matrix is plotted (`sns.heatmap(numeric_data.corr(), ...)`). -/
inductive Event
  | readCSV (path : String)
  | heatmap (numeric_data : DataSet)
  | scatter
  | histogram
  | bar
  | box
  | scatter3d
deriving Repr, DecidableEq

/-- The dataset path hardcoded in `TestNanofluidDataset.setUp`. -/
def testDatasetPath : String :=
  "E:\\PYTHON\\AI_Python_code_31stJan\\Python_Project\\dataset\\nanofluid_heat_transfer_dataset.csv"

/-- The dataset path hardcoded in the second script's main block. -/
def mainDatasetPath : String :=
  "E:\\IU_MSc_AI_Courses_Slides\\Semester 1.1\\Python task_assignment\\nanofluid_heat_transfer_dataset.csv"

/-- The test methods of `TestNanofluidDataset` (in `unittest`'s run order);
`setUp` runs before each one. -/
def testMethods : List String :=
  ["test_data_loading", "test_missing_values", "test_numeric_columns",
   "test_scatter_plot"]

/-- Trace of `unittest.main(argv=[''], exit=False)`: for each test method,
`setUp` calls `load_data` on the hardcoded dataset path; the test bodies
read no file and display no plot (`test_scatter_plot` builds a Bokeh
figure without showing it). -/
def runTests_trace : List Event :=
  testMethods.flatMap (fun _ => [Event.readCSV testDatasetPath])

/-- Trace of `main(file_path)`: `load_data(file_path)`, then
`preprocess_data`, then the unit tests, then the six plots in the order
they are called. -/
def main_trace (read : String → DataSet) (file_path : String) : List Event :=
  let data := read file_path
  let numeric_data := preprocess_data data
  [Event.readCSV file_path] ++ runTests_trace ++
    [Event.heatmap numeric_data, Event.scatter, Event.histogram,
     Event.bar, Event.box, Event.scatter3d]

/-- Number of reads of a given path in a trace. -/
def countReads (p : String) (tr : List Event) : Nat :=
  (tr.filter (fun e => e = Event.readCSV p)).length

/-- The displayed plots of a trace, in order (reads filtered out). -/
def plotEvents (tr : List Event) : List Event :=
  tr.filter (fun e =>
    match e with
    | Event.readCSV _ => false
    | _ => true)

/-- C5: `main(file_path)` loads the dataset (its first effect is reading
`file_path`), restricts it to its numeric columns, and then displays the
fixed battery of plots in order: a heatmap of correlations computed over
exactly the numeric columns (the heatmap is invoked on
`preprocess_data data`, whose columns are exactly the numeric columns of
the loaded data), then scatter, histogram, bar, box and 3D scatter. -/
theorem main_plots_in_order (read : String → DataSet) (file_path : String) :
    (main_trace read file_path).head? = some (Event.readCSV file_path) ∧
    plotEvents (main_trace read file_path) =
      [Event.heatmap (preprocess_data (read file_path)), Event.scatter,
       Event.histogram, Event.bar, Event.box, Event.scatter3d] ∧
    (preprocess_data (read file_path)).cols =
      (read file_path).cols.filter (fun p => p.2.isNumeric) :=
  ⟨rfl, rfl, rfl⟩

/-- C6 counterexample: a run of the second script's `main` on the dataset
path hardcoded in its main block reads the unit tests' hardcoded dataset
CSV four times — once per test method, via `setUp` — not once. -/
theorem test_csv_read_four_times :
    countReads testDatasetPath
      (main_trace (fun _ => ⟨[]⟩) mainDatasetPath) = 4 ∧
    countReads testDatasetPath
      (main_trace (fun _ => ⟨[]⟩) mainDatasetPath) ≠ 1 := by
  constructor
  · rfl
  · intro h
    simp [countReads, main_trace, runTests_trace, testMethods,
      testDatasetPath, mainDatasetPath] at h

/-- C6 (amended): in the first script the ideal and training files are each
read exactly once at `DataHandler` construction (their paths being
distinct) and the test file exactly once per `validate_test_data` call,
with `get_best_fit_functions` reading nothing; in the second script `main`
reads its dataset argument exactly once, but the unit tests it runs
re-read their hardcoded dataset path in `setUp` once per test method, so
that file is read four times per run. -/
theorem csv_read_counts (ideal_file train_file test_file : String)
    (hne : ideal_file ≠ train_file)
    (read : String → DataSet) (file_path : String)
    (hfp : file_path ≠ testDatasetPath) :
    (Task01.initReads ideal_file train_file).count ideal_file = 1 ∧
    (Task01.initReads ideal_file train_file).count train_file = 1 ∧
    (Task01.validateReads test_file).count test_file = 1 ∧
    Task01.getBestFitReads.count test_file = 0 ∧
    countReads file_path (main_trace read file_path) = 1 ∧
    countReads testDatasetPath (main_trace read file_path) = 4 := by
  refine ⟨?_, ?_, ?_, ?_, ?_, ?_⟩
  · simp [Task01.initReads, List.count_cons, hne]
  · simp [Task01.initReads, List.count_cons, Ne.symm hne]
  · simp [Task01.validateReads, List.count_cons]
  · simp [Task01.getBestFitReads]
  · simp [countReads, main_trace, runTests_trace, testMethods, Ne.symm hfp]
  · simp [countReads, main_trace, runTests_trace, testMethods, hfp]

/-- Witness for the amended C6 at concrete paths. -/
theorem csv_read_counts_witness :
    (Task01.initReads "ideal.csv" "train.csv").count "ideal.csv" = 1 ∧
    (Task01.initReads "ideal.csv" "train.csv").count "train.csv" = 1 ∧
    (Task01.validateReads "test.csv").count "test.csv" = 1 ∧
    Task01.getBestFitReads.count "test.csv" = 0 ∧
    countReads mainDatasetPath
      (main_trace (fun _ => ⟨[]⟩) mainDatasetPath) = 1 ∧
    countReads testDatasetPath
      (main_trace (fun _ => ⟨[]⟩) mainDatasetPath) = 4 :=
  csv_read_counts "ideal.csv" "train.csv" "test.csv" (by decide)
    (fun _ => ⟨[]⟩) mainDatasetPath (by decide)

end Task02
